import Mathlib

/-!
Verification of the tree-sitter bridge of `datadog-static-analyzer`
(`kernel/src/analysis/tree_sitter.rs`).

The file shallowly embeds the Rust module. The external `tree_sitter`
crate (parser, query engine, cursor) is treated as an opaque capability:
its outputs (trees, query matches) are universally quantified inputs, and
the one behavioural fact of the cursor that the code depends on — that a
`TreeCursor` reports no field name while sitting at the node it was
rooted at, only for strictly deeper nodes — is reflected in how the
concrete-syntax-tree type stores field labels on parent-to-child edges.

Machine integers: `usize` rows/columns are modelled as `Nat`; the
`u32::try_from(..).unwrap()` calls of the source are modelled by an
explicit bound check in a panic monad (`Except String`), where
`Except.error` stands for a Rust panic.
-/

namespace DDSA

/-! ## String maps

`std::collections::HashMap<String, V>` is modelled as an association list
with no duplicate keys, observed only through `get?` / `containsKey`,
which is exactly how the source observes its maps. `insert` overwrites in
place, like `HashMap::insert`.
-/

abbrev SMap (α : Type) : Type := List (String × α)

def SMap.get? {α : Type} (k : String) : SMap α → Option α
  | [] => none
  | (k', v) :: rest => if k' = k then some v else SMap.get? k rest

def SMap.containsKey {α : Type} (k : String) (m : SMap α) : Bool :=
  (SMap.get? k m).isSome

def SMap.insert {α : Type} (k : String) (v : α) : SMap α → SMap α
  | [] => [(k, v)]
  | (k', v') :: rest =>
      if k' = k then (k, v) :: rest else (k', v') :: SMap.insert k v rest

/-! ## Data model

`Language` is the closed enumeration of `crate::model::common`; its four
variants are forced by the exhaustive `match` in
`get_tree_sitter_language`. `Position`, `TreeSitterNode`, `MatchNode` and
`MatchNodeContext` live in `crate::model` (outside the analysed file);
their shape is modelled from the spec (§3) and from every field access the
analysed file performs. Positions use `u32` in the source; here they are
`Nat` values that the mapping code only ever constructs after a
`u32` bound check.
-/

inductive Language : Type where
  | JavaScript : Language
  | Python : Language
  | Rust : Language
  | TypeScript : Language
deriving DecidableEq, Repr

/-- Modelled from the spec: a 1-indexed (line, column) pair; the `u32`
fields of the Rust `Position` are modelled as `Nat` (the `u32` width is
enforced by the conversion in `map_node_internal`). -/
structure Position : Type where
  line : Nat
  col : Nat
deriving DecidableEq, Repr

/-- Modelled from the spec: one node of the normalized AST
(`NormalizedNode` / Rust `TreeSitterNode`); field names and types are the
ones the analysed file constructs. `end` is a Lean keyword, hence
`end_`. -/
structure TreeSitterNode : Type where
  ast_type : String
  start : Position
  end_ : Position
  field_name : Option String
  children : List TreeSitterNode

/-- Modelled from the spec: provenance attached to every match.
`variables` is a reserved word in Lean, hence `variables_`. -/
structure MatchNodeContext : Type where
  code : Option String
  filename : String
  variables_ : SMap String
deriving Repr

/-- Modelled from the spec: one structural match handed to the rule
layer. -/
structure MatchNode : Type where
  captures : SMap TreeSitterNode
  captures_list : SMap (List TreeSitterNode)
  context : MatchNodeContext

/-! ## The external concrete syntax tree

A `tree_sitter::Node` subtree, as observable through the cursor walk the
source performs: kind, named-ness, 0-based start/end points, and the
ordered children, each together with the field label (if any) that this
node assigns to that child in the grammar. A node does not store the
field label its own parent assigns to it: a cursor rooted at the node
cannot see it (documented `TreeCursor::field_name` behaviour — it yields
nothing at the cursor's root). -/

inductive CSTNode : Type where
  | mk (kind : String) (is_named : Bool)
       (startRow startCol endRow endCol : Nat)
       (children : List (Option String × CSTNode)) : CSTNode

def CSTNode.kind : CSTNode → String
  | .mk k _ _ _ _ _ _ => k

def CSTNode.is_named : CSTNode → Bool
  | .mk _ n _ _ _ _ _ => n

def CSTNode.startRow : CSTNode → Nat
  | .mk _ _ r _ _ _ _ => r

def CSTNode.startCol : CSTNode → Nat
  | .mk _ _ _ c _ _ _ => c

def CSTNode.endRow : CSTNode → Nat
  | .mk _ _ _ _ r _ _ => r

def CSTNode.endCol : CSTNode → Nat
  | .mk _ _ _ _ _ c _ => c

def CSTNode.children : CSTNode → List (Option String × CSTNode)
  | .mk _ _ _ _ _ _ cs => cs

/-- A `tree_sitter::Tree`, observed only through `root_node()`. -/
structure Tree : Type where
  root_node : CSTNode

/-! ## u32 conversion -/

/-- `u32::MAX`. -/
def u32Max : Nat := 4294967295

/-- `u32::try_from` on a non-negative value: succeeds exactly when the
value fits in 32 bits. -/
def u32TryFrom (n : Nat) : Option Nat :=
  if n ≤ u32Max then some n else none

/-! ## `map_node`

Faithful embedding of `map_node` / its nested `map_node_internal`:
the named-ness check happens first (an anonymous node maps to nothing and
its subtree is never visited); then the children are walked in sibling
order, keeping the `Some` results; finally the node's own positions are
converted 0-based → 1-based through `u32::try_from(..).unwrap()`, whose
panic is `Except.error`. The `fieldName` argument is what
`cursor.field_name()` reports at this node: the label on the edge from
the parent for strictly nested calls, and `none` at the root of the walk
(`map_node` starts the cursor at the node itself). -/

mutual

def map_node_internal (fieldName : Option String) (n : CSTNode) :
    Except String (Option TreeSitterNode) :=
  match n with
  | .mk kind named sr sc er ec cs =>
    if !named then
      Except.ok none
    else
      match map_node_children cs with
      | Except.error e => Except.error e
      | Except.ok children =>
        match u32TryFrom (sr + 1), u32TryFrom (sc + 1),
              u32TryFrom (er + 1), u32TryFrom (ec + 1) with
        | some sl, some scol, some el, some ecol =>
            Except.ok (some
              { ast_type := kind
                start := { line := sl, col := scol }
                end_ := { line := el, col := ecol }
                field_name := fieldName
                children := children })
        | _, _, _, _ =>
            Except.error "called Option::unwrap on a None value"

def map_node_children :
    List (Option String × CSTNode) → Except String (List TreeSitterNode)
  | [] => Except.ok []
  | (fn, c) :: rest =>
    match map_node_internal fn c with
    | Except.error e => Except.error e
    | Except.ok maybe_child =>
      match map_node_children rest with
      | Except.error e => Except.error e
      | Except.ok others =>
        match maybe_child with
        | some child => Except.ok (child :: others)
        | none => Except.ok others

end

/-- `map_node(node)`: walks a cursor rooted at `node`, so the field name
reported at the top of the walk is `none`. -/
def map_node (node : CSTNode) : Except String (Option TreeSitterNode) :=
  map_node_internal none node

/-! ## Grammar resolution, parsing, query compilation

`tree_sitter::Language` values come from per-language grammar
constructors linked into the binary; they are opaque, so each is an
arbitrary distinct tag here. The parse call and `Query::new` belong to
the external engine and are universally quantified parameters of
`get_tree` / `get_query`. -/

/-- An opaque grammar capability (`tree_sitter::Language`). -/
structure TSLanguage : Type where
  tag : String
deriving DecidableEq, Repr

/-- The four grammar constructors the source links against, as opaque
values. -/
def tree_sitter_python : TSLanguage := { tag := "python" }

def tree_sitter_javascript : TSLanguage := { tag := "javascript" }

def tree_sitter_tsx : TSLanguage := { tag := "tsx" }

def tree_sitter_rust : TSLanguage := { tag := "rust" }

def get_tree_sitter_language (language : Language) : Option TSLanguage :=
  match language with
  | Language.JavaScript => some tree_sitter_javascript
  | Language.Python => some tree_sitter_python
  | Language.Rust => some tree_sitter_rust
  | Language.TypeScript => some tree_sitter_tsx

/-- `get_tree`, with the engine's `Parser::parse` supplied as the
function `engineParse` (fresh parser per call; `set_language` cannot fail
for a grammar of matching version, and the source unwraps it). -/
def get_tree (engineParse : TSLanguage → String → Option Tree)
    (code : String) (language : Language) : Option Tree :=
  (get_tree_sitter_language language).bind fun ts_lang => engineParse ts_lang code

/-- A compiled `tree_sitter::Query`, observed only through
`capture_names()`. -/
structure Query : Type where
  capture_names : List String

/-- Errors of `get_query`: either its own `anyhow!("no language defined")`
or a propagated engine `QueryError` (carried as the engine's diagnostic
string). -/
inductive GetQueryError : Type where
  | noLanguageDefined : GetQueryError
  | queryError (diagnostic : String) : GetQueryError
deriving DecidableEq, Repr

/-- `get_query`, with the engine's `Query::new` supplied as `engineNew`. -/
def get_query (engineNew : TSLanguage → String → Except String Query)
    (query_code : String) (language : Language) : Except GetQueryError Query :=
  match get_tree_sitter_language language with
  | none => Except.error GetQueryError.noLanguageDefined
  | some ts_lang =>
    match engineNew ts_lang query_code with
    | Except.error e => Except.error (GetQueryError.queryError e)
    | Except.ok q => Except.ok q

/-! ## `get_query_nodes`

The engine's `QueryCursor::matches` yields a sequence of matches, each a
sequence of captures `(index, node)`; it is supplied as the function
`engineMatches`. The per-capture body and the accumulation into
`captures` / `captures_list` follow the source line by line; the two
`unwrap`s (`usize::try_from(capture.index)` cannot fail on a 64-bit
target and is dropped; `captures_list.get_mut(name)`) are modelled in the
panic monad. -/

/-- One `QueryCapture`: the capture's index into the query's capture-name
list, and the captured node. -/
structure QueryCapture : Type where
  index : Nat
  node : CSTNode

/-- One `QueryMatch`: its captures in the order the engine reports
them. -/
structure QueryMatch : Type where
  captures : List QueryCapture

/-- The body of the `for capture in query_match.captures` loop, acting on
the accumulator `(captures, captures_list)`. -/
def processCapture (query : Query) (cap : QueryCapture)
    (acc : SMap TreeSitterNode × SMap (List TreeSitterNode)) :
    Except String (SMap TreeSitterNode × SMap (List TreeSitterNode)) :=
  let capture_name_opt := query.capture_names.get? cap.index
  match map_node cap.node with
  | Except.error e => Except.error e
  | Except.ok node_opt =>
    match capture_name_opt, node_opt with
    | some capture_name, some node =>
      let captures := SMap.insert capture_name node acc.1
      let captures_list :=
        if !SMap.containsKey capture_name acc.2 then
          SMap.insert capture_name [] acc.2
        else acc.2
      match SMap.get? capture_name captures_list with
      | some l =>
          Except.ok (captures, SMap.insert capture_name (l ++ [node]) captures_list)
      | none => Except.error "called Option::unwrap on a None value"
    | _, _ => Except.ok acc

/-- The capture loop over one match. -/
def processCaptures (query : Query) :
    List QueryCapture → SMap TreeSitterNode × SMap (List TreeSitterNode) →
    Except String (SMap TreeSitterNode × SMap (List TreeSitterNode))
  | [], acc => Except.ok acc
  | cap :: rest, acc =>
    match processCapture query cap acc with
    | Except.error e => Except.error e
    | Except.ok acc' => processCaptures query rest acc'

/-- The match loop: one `MatchNode` per engine match, in order. -/
def buildMatchNodes (query : Query) (filename code : String)
    (variables_ : SMap String) :
    List QueryMatch → Except String (List MatchNode)
  | [] => Except.ok []
  | qm :: rest =>
    match processCaptures query qm.captures ([], []) with
    | Except.error e => Except.error e
    | Except.ok acc =>
      match buildMatchNodes query filename code variables_ rest with
      | Except.error e => Except.error e
      | Except.ok ms =>
        Except.ok
          ({ captures := acc.1
             captures_list := acc.2
             context :=
               { code := some code
                 filename := filename
                 variables_ := variables_ } } :: ms)

/-- `get_query_nodes`, with the engine's match enumeration supplied as
`engineMatches` (called on the query, the tree's root and the source
bytes, exactly as the source calls `query_cursor.matches`). -/
def get_query_nodes
    (engineMatches : Query → CSTNode → String → List QueryMatch)
    (tree : Tree) (query : Query) (filename code : String)
    (variables_ : SMap String) : Except String (List MatchNode) :=
  buildMatchNodes query filename code variables_
    (engineMatches query tree.root_node code)

/-! ## Specification-side helpers

Used only to state the claims; never by the embedded code. -/

/-- The last element of a list, if any. -/
def lastOf {α : Type} : List α → Option α
  | [] => none
  | [a] => some a
  | _ :: b :: rest => lastOf (b :: rest)

/-- The `Some` payload of a non-panicking mapping, `none` otherwise. -/
def okSome (r : Except String (Option TreeSitterNode)) : Option TreeSitterNode :=
  match r with
  | Except.ok o => o
  | Except.error _ => none

/-- The normalized nodes bound to capture name `k` by the captures `caps`
of one match, in encounter order: a capture contributes exactly when its
index resolves to `k` and its node maps to something. -/
def boundNodes (query : Query) (k : String) (caps : List QueryCapture) :
    List TreeSitterNode :=
  caps.filterMap fun cap =>
    match query.capture_names.get? cap.index, map_node cap.node with
    | some name, Except.ok (some node) => if name = k then some node else none
    | _, _ => none

mutual

/-- Every position in a normalized tree fits the `u32` width. -/
def fitsU32 : TreeSitterNode → Bool
  | .mk _ s e _ children =>
    decide (s.line ≤ u32Max) && decide (s.col ≤ u32Max) &&
    decide (e.line ≤ u32Max) && decide (e.col ≤ u32Max) &&
    fitsU32List children

def fitsU32List : List TreeSitterNode → Bool
  | [] => true
  | c :: rest => fitsU32 c && fitsU32List rest

end

/-! ## Concrete example inputs

A small concrete CST in the shape of the repository's own Python test
tree (`def func(): ...`): a named parent that assigns the field `name` to
its first child, an anonymous second child hiding a named descendant. The
`exChildAs*` values are what the mapping produces for the first child,
computed once here and checked by `rfl` in the witnesses. -/

def exChild : CSTNode := CSTNode.mk "identifier" true 1 4 1 10 []

def exHidden : CSTNode := CSTNode.mk "hidden" true 1 2 1 3 []

def exAnon : CSTNode := CSTNode.mk "(" false 1 2 1 3 [(none, exHidden)]

def exParent : CSTNode :=
  CSTNode.mk "function_definition" true 1 0 3 5
    [(some "name", exChild), (none, exAnon)]

def exChildAsRoot : TreeSitterNode :=
  { ast_type := "identifier", start := { line := 2, col := 5 },
    end_ := { line := 2, col := 11 }, field_name := none, children := [] }

def exChildAsField : TreeSitterNode :=
  { exChildAsRoot with field_name := some "name" }

def exParentMapped : TreeSitterNode :=
  { ast_type := "function_definition", start := { line := 2, col := 1 },
    end_ := { line := 4, col := 6 }, field_name := none,
    children := [exChildAsField] }

/-- A named node whose start row is already `u32::MAX`, so its 1-based
line overflows `u32`. -/
def exHuge : CSTNode := CSTNode.mk "module" true u32Max 0 u32Max 0 []

/-! Concrete stand-ins for the external engine, used by the witnesses. -/

/-- An engine whose query constructor rejects every query text. -/
def engineReject : TSLanguage → String → Except String Query :=
  fun _ _ => Except.error "unexpected EOF"

/-- An engine whose query constructor accepts, binding one capture
name. -/
def engineAccept : TSLanguage → String → Except String Query :=
  fun _ _ => Except.ok { capture_names := ["classname"] }

/-- An engine whose parse call reports no tree. -/
def engineParseNone : TSLanguage → String → Option Tree :=
  fun _ _ => none

/-- The mapping of `exHidden` (as a capture of its own). -/
def exHiddenMapped : TreeSitterNode :=
  { ast_type := "hidden", start := { line := 2, col := 3 },
    end_ := { line := 2, col := 4 }, field_name := none, children := [] }

/-- A two-name query. -/
def exQuery : Query := { capture_names := ["x", "y"] }

/-- One engine match binding `x` twice (`exChild`, then `exHidden`), one
capture of an anonymous node, and one capture with an out-of-range
index. -/
def exQueryMatch : QueryMatch :=
  { captures := [{ index := 0, node := exChild }, { index := 0, node := exHidden },
                 { index := 1, node := exAnon }, { index := 9, node := exChild }] }

def exTree : Tree := { root_node := exParent }

/-- An engine reporting exactly one match, `exQueryMatch`. -/
def engineOne : Query → CSTNode → String → List QueryMatch :=
  fun _ _ _ => [exQueryMatch]

/-- An engine reporting no match at all. -/
def engineEmpty : Query → CSTNode → String → List QueryMatch :=
  fun _ _ _ => []

/-- The `MatchNode` the extraction builds from `exQueryMatch`: last-wins
in `captures`, encounter order in `captures_list`, skipped captures
absent. -/
def exMatchNode : MatchNode :=
  { captures := [("x", exHiddenMapped)],
    captures_list := [("x", [exChildAsRoot, exHiddenMapped])],
    context := { code := some "code", filename := "f.py", variables_ := [] } }

/-- The per-match guarantees of the extraction, relating each engine
match to the `MatchNode` built from it. -/
def MatchInvariant (query : Query) (qm : QueryMatch) (mn : MatchNode) : Prop :=
  (∀ k, (SMap.get? k mn.captures).isSome =
        (SMap.get? k mn.captures_list).isSome) ∧
  (∀ k l, SMap.get? k mn.captures_list = some l →
    l ≠ [] ∧ l = boundNodes query k qm.captures ∧
    SMap.get? k mn.captures = lastOf l)

/-! ## Lemmas about `SMap` -/

@[simp] theorem SMap.get?_nil {α : Type} (k : String) :
    SMap.get? k ([] : SMap α) = none := rfl

@[simp] theorem SMap.get?_insert {α : Type} (k k' : String) (v : α) (m : SMap α) :
    SMap.get? k' (SMap.insert k v m) = if k = k' then some v else SMap.get? k' m := by
  induction m with
  | nil =>
      by_cases h : k = k' <;> simp [SMap.insert, SMap.get?, h]
  | cons p rest ih =>
      obtain ⟨a, b⟩ := p
      by_cases hak : a = k
      · subst hak
        by_cases h : a = k' <;> simp [SMap.insert, SMap.get?, h]
      · by_cases h : a = k'
        · subst h
          have : ¬ k = a := fun hk => hak hk.symm
          simp [SMap.insert, SMap.get?, hak, this, ih]
        · simp [SMap.insert, SMap.get?, hak, h, ih]

/-! ## Lemmas about `map_node` -/

theorem u32TryFrom_eq_some {n v : Nat} (h : u32TryFrom n = some v) :
    v = n ∧ n ≤ u32Max := by
  unfold u32TryFrom at h
  split at h
  · exact ⟨(Option.some.inj h).symm, by assumption⟩
  · exact absurd h (by simp)

theorem u32TryFrom_le {n : Nat} (h : n ≤ u32Max) : u32TryFrom n = some n := by
  simp [u32TryFrom, h]

/-- An anonymous node maps to nothing, whatever field name the cursor
reports and whatever its subtree holds. -/
theorem map_node_internal_anon {fn : Option String} {n : CSTNode}
    (h : n.is_named = false) : map_node_internal fn n = Except.ok none := by
  obtain ⟨k, nm, sr, sc, er, ec, cs⟩ := n
  simp [CSTNode.is_named] at h
  simp [map_node_internal, h]

/-- Inversion: everything the source packs into a successfully mapped
node. -/
theorem map_node_internal_ok_some {fn : Option String} {n : CSTNode}
    {t : TreeSitterNode} (h : map_node_internal fn n = Except.ok (some t)) :
    t.ast_type = n.kind ∧
    t.start.line = n.startRow + 1 ∧ t.start.col = n.startCol + 1 ∧
    t.end_.line = n.endRow + 1 ∧ t.end_.col = n.endCol + 1 ∧
    t.field_name = fn ∧
    n.is_named = true ∧
    n.startRow + 1 ≤ u32Max ∧ n.startCol + 1 ≤ u32Max ∧
    n.endRow + 1 ≤ u32Max ∧ n.endCol + 1 ≤ u32Max ∧
    map_node_children n.children = Except.ok t.children := by
  obtain ⟨k, nm, sr, sc, er, ec, cs⟩ := n
  rw [map_node_internal] at h
  by_cases hnm : nm = true
  · simp only [hnm, Bool.not_true] at h
    simp only [Bool.false_eq_true, if_false] at h
    revert h
    match hcs : map_node_children cs with
    | Except.error e => intro h; exact absurd h (by simp)
    | Except.ok children =>
      match h1 : u32TryFrom (sr + 1), h2 : u32TryFrom (sc + 1),
            h3 : u32TryFrom (er + 1), h4 : u32TryFrom (ec + 1) with
      | some sl, some scol, some el, some ecol =>
        intro h
        obtain ⟨hsl, hsl'⟩ := u32TryFrom_eq_some h1
        obtain ⟨hscol, hscol'⟩ := u32TryFrom_eq_some h2
        obtain ⟨hel, hel'⟩ := u32TryFrom_eq_some h3
        obtain ⟨hecol, hecol'⟩ := u32TryFrom_eq_some h4
        have ht := (Except.ok.inj h)
        have ht' := Option.some.inj ht
        subst ht'
        subst hsl; subst hscol; subst hel; subst hecol
        simp_all [CSTNode.kind, CSTNode.startRow, CSTNode.startCol,
          CSTNode.endRow, CSTNode.endCol, CSTNode.is_named, CSTNode.children]
      | none, _, _, _ => intro h; exact absurd h (by simp)
      | some _, none, _, _ => intro h; exact absurd h (by simp)
      | some _, some _, none, _ => intro h; exact absurd h (by simp)
      | some _, some _, some _, none => intro h; exact absurd h (by simp)
  · have hnm' : nm = false := by
      cases nm
      · rfl
      · exact absurd rfl hnm
    subst hnm'
    simp at h

/-- A successful mapping of a named node is never `none`. -/
theorem map_node_internal_named_ne_none {fn : Option String} {n : CSTNode}
    {r : Option TreeSitterNode}
    (hn : n.is_named = true) (h : map_node_internal fn n = Except.ok r) :
    r ≠ none := by
  obtain ⟨k, nm, sr, sc, er, ec, cs⟩ := n
  simp [CSTNode.is_named] at hn
  subst hn
  rw [map_node_internal] at h
  simp only [Bool.not_true, Bool.false_eq_true, if_false] at h
  revert h
  match hcs : map_node_children cs with
  | Except.error e => intro h; exact absurd h (by simp)
  | Except.ok children =>
    match u32TryFrom (sr + 1), u32TryFrom (sc + 1),
          u32TryFrom (er + 1), u32TryFrom (ec + 1) with
    | some _, some _, some _, some _ =>
      intro h
      have := Except.ok.inj h
      subst this
      simp
    | none, _, _, _ => intro h; exact absurd h (by simp)
    | some _, none, _, _ => intro h; exact absurd h (by simp)
    | some _, some _, none, _ => intro h; exact absurd h (by simp)
    | some _, some _, some _, none => intro h; exact absurd h (by simp)

/-- A named node one of whose own 1-based coordinates exceeds `u32::MAX`
never maps successfully: the mapping panics (either on the node's own
conversion, or already inside a child). -/
theorem map_node_internal_overflow {fn : Option String} {n : CSTNode}
    (hn : n.is_named = true)
    (hov : ¬ (n.startRow + 1 ≤ u32Max ∧ n.startCol + 1 ≤ u32Max ∧
              n.endRow + 1 ≤ u32Max ∧ n.endCol + 1 ≤ u32Max)) :
    ∃ e, map_node_internal fn n = Except.error e := by
  obtain ⟨k, nm, sr, sc, er, ec, cs⟩ := n
  simp [CSTNode.is_named] at hn
  subst hn
  simp only [CSTNode.startRow, CSTNode.startCol, CSTNode.endRow,
    CSTNode.endCol] at hov
  rw [map_node_internal]
  simp only [Bool.not_true, Bool.false_eq_true, if_false]
  match hcs : map_node_children cs with
  | Except.error e => exact ⟨e, rfl⟩
  | Except.ok children =>
    match h1 : u32TryFrom (sr + 1), h2 : u32TryFrom (sc + 1),
          h3 : u32TryFrom (er + 1), h4 : u32TryFrom (ec + 1) with
    | some _, some _, some _, some _ =>
      exact absurd ⟨(u32TryFrom_eq_some h1).2, (u32TryFrom_eq_some h2).2,
        (u32TryFrom_eq_some h3).2, (u32TryFrom_eq_some h4).2⟩ hov
    | none, _, _, _ => exact ⟨_, rfl⟩
    | some _, none, _, _ => exact ⟨_, rfl⟩
    | some _, some _, none, _ => exact ⟨_, rfl⟩
    | some _, some _, some _, none => exact ⟨_, rfl⟩

/-- The child loop, when it does not panic, returns exactly the `Some`
results of the per-child mappings, in sibling order. -/
theorem map_node_children_ok {cs : List (Option String × CSTNode)}
    {l : List TreeSitterNode} (h : map_node_children cs = Except.ok l) :
    l = cs.filterMap fun p => okSome (map_node_internal p.1 p.2) := by
  induction cs generalizing l with
  | nil =>
    rw [map_node_children] at h
    simp [List.filterMap]
    exact (Except.ok.inj h).symm
  | cons p rest ih =>
    obtain ⟨fn, c⟩ := p
    rw [map_node_children] at h
    revert h
    match hc : map_node_internal fn c with
    | Except.error e => intro h; exact absurd h (by simp)
    | Except.ok maybe_child =>
      match hr : map_node_children rest with
      | Except.error e => intro h; exact absurd h (by simp)
      | Except.ok others =>
        intro h
        have hrec := ih hr
        match maybe_child with
        | some child =>
          have := Except.ok.inj h
          subst this
          simp [List.filterMap_cons, okSome, hc, hrec]
        | none =>
          have := Except.ok.inj h
          subst this
          simp [List.filterMap_cons, okSome, hc, hrec]

/-- The field name the cursor reports is only stored in the produced
node, never consulted: mapping with field `fn` is mapping with no field,
then overwriting the top-level `field_name`. -/
theorem map_node_internal_field (fn : Option String) (n : CSTNode) :
    map_node_internal fn n =
      (map_node_internal none n).map
        (Option.map fun t => { t with field_name := fn }) := by
  obtain ⟨k, nm, sr, sc, er, ec, cs⟩ := n
  rw [map_node_internal]
  conv_rhs => rw [map_node_internal]
  by_cases hnm : nm = true
  · subst hnm
    simp only [Bool.not_true, Bool.false_eq_true, if_false]
    match hcs : map_node_children cs with
    | Except.error e => simp [Except.map]
    | Except.ok children =>
      match u32TryFrom (sr + 1), u32TryFrom (sc + 1),
            u32TryFrom (er + 1), u32TryFrom (ec + 1) with
      | some _, some _, some _, some _ => simp [Except.map]
      | none, _, _, _ => simp [Except.map]
      | some _, none, _, _ => simp [Except.map]
      | some _, some _, none, _ => simp [Except.map]
      | some _, some _, some _, none => simp [Except.map]
  · have hnm' : nm = false := by
      cases nm
      · rfl
      · exact absurd rfl hnm
    subst hnm'
    simp [Except.map]

mutual

/-- Every tree a non-panicking mapping produces fits the `u32` width at
every depth. -/
theorem map_node_internal_fits :
    ∀ (fn : Option String) (n : CSTNode) (t : TreeSitterNode),
      map_node_internal fn n = Except.ok (some t) → fitsU32 t = true
  | fn, CSTNode.mk k nm sr sc er ec cs, t, h => by
    obtain ⟨_, hsl, hscol, hel, hecol, _, _, b1, b2, b3, b4, hch⟩ :=
      map_node_internal_ok_some h
    have hfits := map_node_children_fits cs t.children hch
    obtain ⟨ty, s, e, f, ch⟩ := t
    simp only [CSTNode.startRow, CSTNode.startCol, CSTNode.endRow,
      CSTNode.endCol] at hsl hscol hel hecol b1 b2 b3 b4
    rw [fitsU32]
    simp_all

theorem map_node_children_fits :
    ∀ (cs : List (Option String × CSTNode)) (l : List TreeSitterNode),
      map_node_children cs = Except.ok l → fitsU32List l = true
  | [], l, h => by
    rw [map_node_children] at h
    have := Except.ok.inj h
    subst this
    rfl
  | (fn, c) :: rest, l, h => by
    rw [map_node_children] at h
    revert h
    match hc : map_node_internal fn c with
    | Except.error e => intro h; exact absurd h (by simp)
    | Except.ok maybe_child =>
      match hr : map_node_children rest with
      | Except.error e => intro h; exact absurd h (by simp)
      | Except.ok others =>
        intro h
        have hrest := map_node_children_fits rest others hr
        match maybe_child with
        | some child =>
          have hchild := map_node_internal_fits fn c child hc
          have := Except.ok.inj h
          subst this
          rw [fitsU32List]
          simp [hchild, hrest]
        | none =>
          have := Except.ok.inj h
          subst this
          exact hrest

end

theorem okSome_eq_some {r : Except String (Option TreeSitterNode)}
    {u : TreeSitterNode} (h : okSome r = some u) : r = Except.ok (some u) := by
  match r with
  | Except.ok o =>
    rw [okSome] at h
    rw [h]
  | Except.error e => simp [okSome] at h

/-! ## Lemmas about the capture loop -/

theorem lastOf_cons {α : Type} (a : α) (l : List α) :
    lastOf (a :: l) = some (match lastOf l with | some v => v | none => a) := by
  induction l generalizing a with
  | nil => rfl
  | cons b bs ih =>
    rw [show lastOf (a :: b :: bs) = lastOf (b :: bs) from rfl, ih b]

theorem lastOf_eq_none {α : Type} {l : List α} :
    lastOf l = none ↔ l = [] := by
  cases l with
  | nil => simp [lastOf]
  | cons a as => simp [lastOf_cons]

/-- Reading back any key after the source's ensure-present step
(`if !contains_key { insert(name, default) }`). -/
theorem get?_ensure {α : Type} (name k : String) (cl : SMap α) (d : α) :
    SMap.get? k (if !SMap.containsKey name cl then SMap.insert name d cl else cl) =
      if name = k then some ((SMap.get? name cl).getD d) else SMap.get? k cl := by
  by_cases hc : SMap.containsKey name cl
  · rw [SMap.containsKey, Option.isSome_iff_exists] at hc
    obtain ⟨l, hl⟩ := hc
    have : SMap.containsKey name cl = true := by simp [SMap.containsKey, hl]
    simp only [this, Bool.not_true, Bool.false_eq_true, if_false]
    by_cases hk : name = k
    · subst hk
      simp [hl]
    · simp [hk]
  · have hc' : SMap.containsKey name cl = false := by
      cases h : SMap.containsKey name cl
      · rfl
      · exact absurd h hc
    have hnone : SMap.get? name cl = none := by
      cases h : SMap.get? name cl
      · rfl
      · exact absurd (by simp [SMap.containsKey, h]) hc
    simp only [hc', Bool.not_false, if_true, SMap.get?_insert]
    by_cases hk : name = k
    · subst hk
      simp [hnone]
    · simp [hk]

/-- A capture whose node maps to nothing is silently skipped: the
accumulator is returned unchanged. -/
theorem processCapture_skip_none {q : Query} {cap : QueryCapture}
    {acc : SMap TreeSitterNode × SMap (List TreeSitterNode)}
    (hmap : map_node cap.node = Except.ok none) :
    processCapture q cap acc = Except.ok acc := by
  simp only [processCapture, hmap]
  cases q.capture_names.get? cap.index <;> rfl

/-- A capture whose index resolves to no name is skipped. -/
theorem processCapture_skip_noname {q : Query} {cap : QueryCapture}
    {acc : SMap TreeSitterNode × SMap (List TreeSitterNode)}
    {o : Option TreeSitterNode}
    (hname : q.capture_names.get? cap.index = none)
    (hmap : map_node cap.node = Except.ok o) :
    processCapture q cap acc = Except.ok acc := by
  simp only [processCapture, hmap, hname]

/-- A capture with a resolved name and a mapped node overwrites
`captures[name]` and appends to `captures_list[name]`. -/
theorem processCapture_hit {q : Query} {cap : QueryCapture} {name : String}
    {node : TreeSitterNode}
    (hname : q.capture_names.get? cap.index = some name)
    (hmap : map_node cap.node = Except.ok (some node))
    (c : SMap TreeSitterNode) (cl : SMap (List TreeSitterNode)) :
    processCapture q cap (c, cl) = Except.ok
      (SMap.insert name node c,
       SMap.insert name (((SMap.get? name cl).getD []) ++ [node])
         (if !SMap.containsKey name cl then SMap.insert name [] cl else cl)) := by
  simp only [processCapture, hmap, hname]
  rw [show SMap.get? name
      (if !SMap.containsKey name cl then SMap.insert name [] cl else cl) =
      some ((SMap.get? name cl).getD []) by rw [get?_ensure]; simp]

/-- A capture whose node panics the mapping panics the loop. -/
theorem processCapture_panic {q : Query} {cap : QueryCapture}
    {acc : SMap TreeSitterNode × SMap (List TreeSitterNode)} {e : String}
    (hmap : map_node cap.node = Except.error e) :
    processCapture q cap acc = Except.error e := by
  simp only [processCapture, hmap]

theorem boundNodes_cons_noname {q : Query} {cap : QueryCapture}
    {rest : List QueryCapture} {k : String}
    (hn : q.capture_names.get? cap.index = none) :
    boundNodes q k (cap :: rest) = boundNodes q k rest := by
  simp only [boundNodes, List.filterMap_cons, hn]

theorem boundNodes_cons_mapnone {q : Query} {cap : QueryCapture}
    {rest : List QueryCapture} {k : String}
    (hm : map_node cap.node = Except.ok none) :
    boundNodes q k (cap :: rest) = boundNodes q k rest := by
  simp only [boundNodes, List.filterMap_cons, hm]
  cases q.capture_names.get? cap.index <;> rfl

theorem boundNodes_cons_hit {q : Query} {cap : QueryCapture}
    {rest : List QueryCapture} {k name : String} {node : TreeSitterNode}
    (hn : q.capture_names.get? cap.index = some name)
    (hm : map_node cap.node = Except.ok (some node)) :
    boundNodes q k (cap :: rest) =
      if name = k then node :: boundNodes q k rest else boundNodes q k rest := by
  simp only [boundNodes, List.filterMap_cons, hn, hm]
  by_cases hk : name = k <;> simp [hk]

/-- The invariant of the capture loop: starting from any accumulator, the
list map ends holding, at each key, what it held before followed by the
nodes bound to that key (a key absent before appears exactly when some
node is bound to it), and the overwrite map ends holding the last bound
node, or what it held before when none was bound. -/
theorem processCaptures_spec (q : Query) :
    ∀ (caps : List QueryCapture) (c : SMap TreeSitterNode)
      (cl : SMap (List TreeSitterNode)) (c' : SMap TreeSitterNode)
      (cl' : SMap (List TreeSitterNode)),
      processCaptures q caps (c, cl) = Except.ok (c', cl') →
      ∀ k : String,
        SMap.get? k cl' =
          (match SMap.get? k cl with
           | some l => some (l ++ boundNodes q k caps)
           | none =>
             if (boundNodes q k caps).isEmpty then none
             else some (boundNodes q k caps)) ∧
        SMap.get? k c' =
          (match lastOf (boundNodes q k caps) with
           | some v => some v
           | none => SMap.get? k c) := by
  intro caps
  induction caps with
  | nil =>
    intro c cl c' cl' h k
    rw [processCaptures] at h
    have h' := Except.ok.inj h
    rw [Prod.ext_iff] at h'
    obtain ⟨h1, h2⟩ := h'
    simp only at h1 h2
    subst h1
    subst h2
    constructor
    · cases hcl : SMap.get? k cl <;> simp [boundNodes]
    · simp [boundNodes, lastOf]
  | cons cap rest ih =>
    intro c cl c' cl' h k
    rw [processCaptures] at h
    cases hm : map_node cap.node with
    | error e =>
      rw [processCapture_panic hm] at h
      exact absurd h (by simp)
    | ok o =>
      cases o with
      | none =>
        rw [processCapture_skip_none hm] at h
        rw [boundNodes_cons_mapnone hm]
        exact ih c cl c' cl' h k
      | some node =>
        cases hn : q.capture_names.get? cap.index with
        | none =>
          rw [processCapture_skip_noname hn hm] at h
          rw [boundNodes_cons_noname hn]
          exact ih c cl c' cl' h k
        | some name =>
          rw [processCapture_hit hn hm c cl] at h
          obtain ⟨s1, s2⟩ := ih _ _ _ _ h k
          rw [boundNodes_cons_hit hn hm]
          by_cases hk : name = k
          · subst hk
            rw [if_pos rfl]
            constructor
            · rw [s1, SMap.get?_insert, if_pos rfl]
              cases hcl : SMap.get? name cl with
              | none => simp [hcl]
              | some l => simp [hcl, List.append_assoc]
            · rw [s2, SMap.get?_insert, if_pos rfl, lastOf_cons]
              cases hb : lastOf (boundNodes q name rest) <;> simp [hb]
          · rw [if_neg hk]
            constructor
            · rw [s1, SMap.get?_insert, if_neg hk, get?_ensure, if_neg hk]
            · rw [s2, SMap.get?_insert, if_neg hk]

/-! ## The claims -/

/-- C2: `map_node` maps a node to nothing exactly when the node is not
named; for a named node, the result's children are the mappings of the
CST children in sibling order with the elided ones discarded, and the
named-ness test runs independently at every recursion level, so an
anonymous child is dropped whole and its named descendants are never
promoted. -/
theorem claim_C2 (n : CSTNode) :
    (n.is_named = false → map_node n = Except.ok none) ∧
    (∀ r, map_node n = Except.ok r → r = none → n.is_named = false) ∧
    (∀ t, map_node n = Except.ok (some t) →
      t.children = n.children.filterMap fun p => okSome (map_node_internal p.1 p.2)) ∧
    (∀ p, p ∈ n.children → p.2.is_named = false →
      map_node_internal p.1 p.2 = Except.ok none) := by
  refine ⟨fun h => map_node_internal_anon h, fun r h hr => ?_, fun t h => ?_,
    fun p _ hp => map_node_internal_anon hp⟩
  · cases hb : n.is_named with
    | false => rfl
    | true => exact absurd hr (map_node_internal_named_ne_none hb h)
  · obtain ⟨_, _, _, _, _, _, _, _, _, _, _, hch⟩ := map_node_internal_ok_some h
    exact map_node_children_ok hch

/-- C2 at the concrete parent: the mapping succeeds, its children are the
filtered child mappings, and the anonymous child (with its named
descendant) maps to nothing. -/
theorem claim_C2_witness :
    map_node exParent = Except.ok (some exParentMapped) ∧
    exParentMapped.children =
      exParent.children.filterMap (fun p => okSome (map_node_internal p.1 p.2)) ∧
    map_node_internal none exAnon = Except.ok none :=
  ⟨rfl, (claim_C2 exParent).2.2.1 exParentMapped rfl,
    (claim_C2 exParent).2.2.2 (none, exAnon)
      (by simp [exParent, CSTNode.children]) rfl⟩

/-- C3: every mapping (a direct `map_node` call, or the nested call for
any depth) converts the parser's 0-based row/column pairs by adding 1 to
both coordinates of both `start` and `end`. -/
theorem claim_C3 (fn : Option String) (n : CSTNode) (t : TreeSitterNode)
    (h : map_node_internal fn n = Except.ok (some t)) :
    t.start.line = n.startRow + 1 ∧ t.start.col = n.startCol + 1 ∧
    t.end_.line = n.endRow + 1 ∧ t.end_.col = n.endCol + 1 := by
  obtain ⟨_, h1, h2, h3, h4, _⟩ := map_node_internal_ok_some h
  exact ⟨h1, h2, h3, h4⟩

/-- C3 at the concrete first child: row 1 / columns 4 and 10 become line
2 / columns 5 and 11. -/
theorem claim_C3_witness :
    map_node_internal none exChild = Except.ok (some exChildAsRoot) ∧
    exChildAsRoot.start.line = exChild.startRow + 1 ∧
    exChildAsRoot.start.col = exChild.startCol + 1 ∧
    exChildAsRoot.end_.line = exChild.endRow + 1 ∧
    exChildAsRoot.end_.col = exChild.endCol + 1 :=
  ⟨rfl, claim_C3 none exChild exChildAsRoot rfl⟩

/-- C10: the mapping reads field names from a cursor rooted at the mapped
node, which reports no field at its own root, so the node a `map_node`
call starts at gets `field_name = none` regardless of the role it plays
in any parent, while strictly nested children carry exactly the label of
their edge. -/
theorem claim_C10 (p : CSTNode) (fn : Option String) (c : CSTNode)
    (t : TreeSitterNode) (_hmem : (fn, c) ∈ p.children)
    (h : map_node c = Except.ok (some t)) :
    t.field_name = none ∧
    (∀ q t', q ∈ c.children → map_node_internal q.1 q.2 = Except.ok (some t') →
      t'.field_name = q.1) :=
  ⟨(map_node_internal_ok_some h).2.2.2.2.2.1,
   fun _ _ _ hq => (map_node_internal_ok_some hq).2.2.2.2.2.1⟩

/-- C10 at the concrete tree: `exChild` plays the role `name` in
`exParent`, yet its direct mapping carries no field name. -/
theorem claim_C10_witness :
    (some "name", exChild) ∈ exParent.children ∧
    map_node exChild = Except.ok (some exChildAsRoot) ∧
    exChildAsRoot.field_name = none :=
  ⟨by simp [exParent, CSTNode.children], rfl,
    (claim_C10 exParent (some "name") exChild exChildAsRoot
      (by simp [exParent, CSTNode.children]) rfl).1⟩

/-- C5 as frozen is false at a concrete input: `exChild` plays the
grammar role `name` in its parent, yet mapping it with `map_node` yields
`field_name = none`, not `some "name"`. -/
theorem claim_C5_counterexample :
    ¬ (∀ (p : CSTNode) (fn : Option String) (c : CSTNode) (t : TreeSitterNode),
        (fn, c) ∈ p.children → map_node c = Except.ok (some t) →
        t.field_name = fn) := by
  intro hclaim
  have h := hclaim exParent (some "name") exChild exChildAsRoot
    (by simp [exParent, CSTNode.children]) rfl
  simp [exChildAsRoot] at h

/-- C5 amended: a node's `field_name` is the role its parent assigns only
for nodes strictly inside a mapping (where the recursion passes the edge
label down); the node a `map_node` call starts at always carries
`none`. -/
theorem claim_C5_amended :
    (∀ (fn : Option String) (c : CSTNode) (t : TreeSitterNode),
        map_node_internal fn c = Except.ok (some t) → t.field_name = fn) ∧
    (∀ (c : CSTNode) (t : TreeSitterNode),
        map_node c = Except.ok (some t) → t.field_name = none) :=
  ⟨fun _ _ _ h => (map_node_internal_ok_some h).2.2.2.2.2.1,
   fun _ _ h => (map_node_internal_ok_some h).2.2.2.2.2.1⟩

/-- C5 amended, at the concrete first child: mapped under its edge label
it carries `some "name"`, mapped directly it carries `none`. -/
theorem claim_C5_witness :
    map_node_internal (some "name") exChild = Except.ok (some exChildAsField) ∧
    exChildAsField.field_name = some "name" ∧
    map_node exChild = Except.ok (some exChildAsRoot) ∧
    exChildAsRoot.field_name = none :=
  ⟨rfl, claim_C5_amended.1 (some "name") exChild exChildAsField rfl,
   rfl, claim_C5_amended.2 exChild exChildAsRoot rfl⟩

/-- C4 as frozen is false at a concrete input: the first child's subtree
inside the parent's mapping carries `field_name = some "name"`, but
restarting `map_node` at that child yields `field_name = none`, so the
two values differ. -/
theorem claim_C4_counterexample :
    ¬ (∀ (n : CSTNode) (t : TreeSitterNode) (p : Option String × CSTNode)
        (u : TreeSitterNode),
        map_node n = Except.ok (some t) → p ∈ n.children →
        map_node_internal p.1 p.2 = Except.ok (some u) → u ∈ t.children →
        map_node p.2 = Except.ok (some u)) := by
  intro hclaim
  have h := hclaim exParent exParentMapped (some "name", exChild) exChildAsField
    rfl (by simp [exParent, CSTNode.children]) rfl (by simp [exParentMapped])
  have h2 : Except.ok (some exChildAsRoot) =
      (Except.ok (some exChildAsField) : Except String (Option TreeSitterNode)) :=
    (rfl : map_node exChild = Except.ok (some exChildAsRoot)).symm.trans h
  have h3 := congrArg TreeSitterNode.field_name (Option.some.inj (Except.ok.inj h2))
  simp [exChildAsRoot, exChildAsField] at h3

/-- C4 amended: restarting the recursion at an already-mapped child
reproduces the corresponding subtree of the parent's mapping except for
the top-level `field_name`, which becomes `none` (the restarted cursor
reports no field at its root); everything else is unaltered. -/
theorem claim_C4_amended (n : CSTNode) (t : TreeSitterNode)
    (h : map_node n = Except.ok (some t)) :
    ∀ u ∈ t.children, ∃ p ∈ n.children,
      map_node_internal p.1 p.2 = Except.ok (some u) ∧
      map_node p.2 = Except.ok (some { u with field_name := none }) := by
  intro u hu
  obtain ⟨_, _, _, _, _, _, _, _, _, _, _, hch⟩ := map_node_internal_ok_some h
  have hchar := map_node_children_ok hch
  rw [hchar] at hu
  obtain ⟨p, hp, hpu⟩ := List.mem_filterMap.mp hu
  have hpu' : map_node_internal p.1 p.2 = Except.ok (some u) := okSome_eq_some hpu
  refine ⟨p, hp, hpu', ?_⟩
  have hswap := map_node_internal_field p.1 p.2
  rw [hpu'] at hswap
  revert hswap
  match hm : map_node_internal none p.2 with
  | Except.error e => intro hswap; simp [Except.map] at hswap
  | Except.ok none => intro hswap; simp [Except.map] at hswap
  | Except.ok (some u0) =>
    intro hswap
    simp only [Except.map, Option.map] at hswap
    have hu0 : u0.field_name = none := (map_node_internal_ok_some hm).2.2.2.2.2.1
    have huval : u = { u0 with field_name := p.1 } :=
      Option.some.inj (Except.ok.inj hswap)
    rw [map_node, hm, huval]
    obtain ⟨a, s, e, f, ch⟩ := u0
    simp only [TreeSitterNode.field_name] at hu0
    rw [hu0]

/-- C9: a named node one of whose 1-based coordinates exceeds `u32::MAX`
makes the mapping panic (abort) instead of truncating, and every tree a
non-panicking mapping returns fits the `u32` width at every depth — with
coordinates exactly `row + 1` / `column + 1` (claim C3's theorem), so
never truncated. -/
theorem claim_C9 (n : CSTNode) :
    (n.is_named = true →
      ¬ (n.startRow + 1 ≤ u32Max ∧ n.startCol + 1 ≤ u32Max ∧
         n.endRow + 1 ≤ u32Max ∧ n.endCol + 1 ≤ u32Max) →
      ∀ fn, ∃ e, map_node_internal fn n = Except.error e) ∧
    (∀ t, map_node n = Except.ok (some t) → fitsU32 t = true) :=
  ⟨fun hn hov _fn => map_node_internal_overflow hn hov,
   fun t h => map_node_internal_fits none n t h⟩

/-- C9 at concrete inputs: a node on row `u32::MAX` panics the mapping,
and the concrete parent's successful mapping fits `u32` everywhere. -/
theorem claim_C9_witness :
    exHuge.is_named = true ∧
    ¬ (exHuge.startRow + 1 ≤ u32Max ∧ exHuge.startCol + 1 ≤ u32Max ∧
       exHuge.endRow + 1 ≤ u32Max ∧ exHuge.endCol + 1 ≤ u32Max) ∧
    (∃ e, map_node_internal none exHuge = Except.error e) ∧
    map_node exParent = Except.ok (some exParentMapped) ∧
    fitsU32 exParentMapped = true :=
  ⟨rfl, by decide, (claim_C9 exHuge).1 rfl (by decide) none,
   rfl, (claim_C9 exParent).2 exParentMapped rfl⟩

/-- C4 amended, at the concrete tree: the subtree for the first child,
with its `field_name` cleared, is exactly what the restarted mapping
returns. -/
theorem claim_C4_witness :
    map_node exParent = Except.ok (some exParentMapped) ∧
    ∃ p ∈ exParent.children,
      map_node_internal p.1 p.2 = Except.ok (some exChildAsField) ∧
      map_node p.2 = Except.ok (some { exChildAsField with field_name := none }) :=
  ⟨rfl, claim_C4_amended exParent exParentMapped rfl exChildAsField
    (by simp [exParentMapped])⟩

/-- C7: `get_query` surfaces a failed grammar resolution as the distinct
error "no language defined"; otherwise it propagates any rejection by the
engine's query constructor as a `QueryError` carrying the engine's
diagnostic, and an accepted query text yields the compiled query. -/
theorem claim_C7 (engineNew : TSLanguage → String → Except String Query)
    (query_code : String) (language : Language) :
    (get_tree_sitter_language language = none →
      get_query engineNew query_code language =
        Except.error GetQueryError.noLanguageDefined) ∧
    (∀ g, get_tree_sitter_language language = some g →
      (∀ e, engineNew g query_code = Except.error e →
        get_query engineNew query_code language =
          Except.error (GetQueryError.queryError e)) ∧
      (∀ q, engineNew g query_code = Except.ok q →
        get_query engineNew query_code language = Except.ok q)) := by
  refine ⟨fun h => ?_, fun g hg => ⟨fun e he => ?_, fun q hq => ?_⟩⟩
  · simp [get_query, h]
  · simp [get_query, hg, he]
  · simp [get_query, hg, hq]

/-- C7 at concrete engines: a rejecting engine's diagnostic is carried
through, an accepting engine's query is returned. -/
theorem claim_C7_witness :
    get_query engineReject "(" Language.Python =
      Except.error (GetQueryError.queryError "unexpected EOF") ∧
    get_query engineAccept "(identifier) @classname" Language.Python =
      Except.ok { capture_names := ["classname"] } :=
  ⟨((claim_C7 engineReject "(" Language.Python).2
      tree_sitter_python rfl).1 "unexpected EOF" rfl,
   ((claim_C7 engineAccept "(identifier) @classname" Language.Python).2
      tree_sitter_python rfl).2 { capture_names := ["classname"] } rfl⟩

/-- C8: grammar resolution succeeds for every member of the closed
`Language` enumeration, so `get_query` can never take its "no language
defined" branch, and `get_tree` returns nothing only when the engine's
own parse call reports no tree. -/
theorem claim_C8 (language : Language) :
    (get_tree_sitter_language language).isSome = true ∧
    (∀ engineNew query_code,
      get_query engineNew query_code language ≠
        Except.error GetQueryError.noLanguageDefined) ∧
    (∀ engineParse code, get_tree engineParse code language = none →
      ∃ g, get_tree_sitter_language language = some g ∧
        engineParse g code = none) := by
  have hsome : ∃ g, get_tree_sitter_language language = some g := by
    cases language
    · exact ⟨_, rfl⟩
    · exact ⟨_, rfl⟩
    · exact ⟨_, rfl⟩
    · exact ⟨_, rfl⟩
  obtain ⟨g, hg⟩ := hsome
  refine ⟨by rw [hg]; rfl, fun engineNew query_code hcontra => ?_,
    fun engineParse code h => ?_⟩
  · rw [get_query, hg] at hcontra
    cases he : engineNew g query_code <;> simp [he] at hcontra
  · rw [get_tree, hg] at h
    simp only [Option.some_bind] at h
    exact ⟨g, hg, h⟩

theorem buildMatchNodes_forall₂ (query : Query) (filename code : String)
    (variables_ : SMap String) :
    ∀ (qms : List QueryMatch) (ms : List MatchNode),
      buildMatchNodes query filename code variables_ qms = Except.ok ms →
      List.Forall₂ (MatchInvariant query) qms ms := by
  intro qms
  induction qms with
  | nil =>
    intro ms h
    rw [buildMatchNodes] at h
    have := Except.ok.inj h
    subst this
    exact List.Forall₂.nil
  | cons qm rest ih =>
    intro ms h
    rw [buildMatchNodes] at h
    revert h
    cases hp : processCaptures query qm.captures ([], []) with
    | error e => intro h; exact absurd h (by simp)
    | ok acc =>
      cases hb : buildMatchNodes query filename code variables_ rest with
      | error e => intro h; exact absurd h (by simp)
      | ok ms' =>
        intro h
        have := Except.ok.inj h
        subst this
        obtain ⟨c', cl'⟩ := acc
        refine List.Forall₂.cons ?_ (ih ms' hb)
        have spec := processCaptures_spec query qm.captures [] [] c' cl' hp
        constructor
        · intro k
          obtain ⟨s1, s2⟩ := spec k
          simp only [SMap.get?_nil] at s1 s2
          cases hbk : boundNodes query k qm.captures with
          | nil => simp [s1, s2, hbk, lastOf]
          | cons x xs => simp [s1, s2, hbk, lastOf_cons]
        · intro k l hl
          obtain ⟨s1, s2⟩ := spec k
          simp only [SMap.get?_nil] at s1 s2
          rw [s1] at hl
          cases hbk : boundNodes query k qm.captures with
          | nil => rw [hbk] at hl; simp at hl
          | cons x xs =>
            rw [hbk] at hl
            simp only [List.isEmpty_cons, Bool.false_eq_true, if_false] at hl
            have hlv := Option.some.inj hl
            subst hlv
            refine ⟨by simp, rfl, ?_⟩
            rw [s2, hbk, lastOf_cons]

/-- C1: for every `MatchNode` the extraction produces, `captures` and
`captures_list` have the same keys; at every key `captures_list` holds
the non-empty sequence of all nodes bound to that name within the match,
in the order the engine reported the captures, and `captures` holds its
last element (last-wins overwrite). -/
theorem claim_C1
    (engineMatches : Query → CSTNode → String → List QueryMatch)
    (tree : Tree) (query : Query) (filename code : String)
    (variables_ : SMap String) (ms : List MatchNode)
    (h : get_query_nodes engineMatches tree query filename code variables_ =
      Except.ok ms) :
    List.Forall₂ (MatchInvariant query)
      (engineMatches query tree.root_node code) ms :=
  buildMatchNodes_forall₂ query filename code variables_
    (engineMatches query tree.root_node code) ms h

/-- C1 at a concrete run: one match binding `x` twice gives
`captures_list["x"]` of length two in encounter order and `captures["x"]`
equal to its last element. -/
theorem claim_C1_witness :
    get_query_nodes engineOne exTree exQuery "f.py" "code" [] =
      Except.ok [exMatchNode] ∧
    List.Forall₂ (MatchInvariant exQuery) [exQueryMatch] [exMatchNode] ∧
    SMap.get? "x" exMatchNode.captures_list =
      some [exChildAsRoot, exHiddenMapped] ∧
    SMap.get? "x" exMatchNode.captures = some exHiddenMapped ∧
    lastOf [exChildAsRoot, exHiddenMapped] = some exHiddenMapped :=
  ⟨rfl,
   claim_C1 engineOne exTree exQuery "f.py" "code" [] [exMatchNode] rfl,
   rfl, rfl, rfl⟩

theorem processCapture_isOk {q : Query} {cap : QueryCapture}
    (acc : SMap TreeSitterNode × SMap (List TreeSitterNode))
    (h : (map_node cap.node).isOk = true) :
    ∃ acc', processCapture q cap acc = Except.ok acc' := by
  cases hm : map_node cap.node with
  | error e => rw [hm] at h; simp [Except.isOk, Except.toBool] at h
  | ok o =>
    cases o with
    | none => exact ⟨acc, processCapture_skip_none hm⟩
    | some node =>
      cases hn : q.capture_names.get? cap.index with
      | none => exact ⟨acc, processCapture_skip_noname hn hm⟩
      | some name =>
        obtain ⟨c, cl⟩ := acc
        exact ⟨_, processCapture_hit hn hm c cl⟩

theorem processCaptures_isOk (q : Query) :
    ∀ (caps : List QueryCapture),
      (∀ cap ∈ caps, (map_node cap.node).isOk = true) →
      ∀ acc, ∃ acc', processCaptures q caps acc = Except.ok acc' := by
  intro caps
  induction caps with
  | nil => exact fun _ acc => ⟨acc, by rw [processCaptures]⟩
  | cons cap rest ih =>
    intro h acc
    obtain ⟨acc1, h1⟩ := processCapture_isOk acc (h cap (List.mem_cons_self cap rest))
    obtain ⟨acc2, h2⟩ := ih (fun c hc => h c (List.mem_cons_of_mem cap hc)) acc1
    refine ⟨acc2, ?_⟩
    rw [processCaptures, h1]
    exact h2

theorem buildMatchNodes_isOk (q : Query) (filename code : String)
    (variables_ : SMap String) :
    ∀ (qms : List QueryMatch),
      (∀ qm ∈ qms, ∀ cap ∈ qm.captures, (map_node cap.node).isOk = true) →
      ∃ ms, buildMatchNodes q filename code variables_ qms = Except.ok ms := by
  intro qms
  induction qms with
  | nil => exact fun _ => ⟨[], by rw [buildMatchNodes]⟩
  | cons qm rest ih =>
    intro h
    obtain ⟨acc, h1⟩ :=
      processCaptures_isOk q qm.captures (h qm (List.mem_cons_self qm rest)) ([], [])
    obtain ⟨ms', h2⟩ := ih (fun m hm => h m (List.mem_cons_of_mem qm hm))
    exact ⟨_, by simp only [buildMatchNodes, h1, h2]; rfl⟩

/-- C6: once a tree and a compiled query are in hand, extraction has no
error path: an engine run with zero matches yields the empty sequence, a
run all of whose captured nodes map without panicking yields a sequence
(one `MatchNode` per match), and a capture whose node maps to nothing is
skipped without disturbing the match's accumulator or aborting the
extraction. -/
theorem claim_C6
    (engineMatches : Query → CSTNode → String → List QueryMatch)
    (tree : Tree) (query : Query) (filename code : String)
    (variables_ : SMap String) :
    (engineMatches query tree.root_node code = [] →
      get_query_nodes engineMatches tree query filename code variables_ =
        Except.ok []) ∧
    ((∀ qm ∈ engineMatches query tree.root_node code, ∀ cap ∈ qm.captures,
        (map_node cap.node).isOk = true) →
      ∃ ms, get_query_nodes engineMatches tree query filename code variables_ =
        Except.ok ms ∧ ms.length = (engineMatches query tree.root_node code).length) ∧
    (∀ (cap : QueryCapture) (acc : SMap TreeSitterNode × SMap (List TreeSitterNode)),
      map_node cap.node = Except.ok none →
      processCapture query cap acc = Except.ok acc) := by
  refine ⟨fun h => ?_, fun h => ?_, fun cap acc hm => processCapture_skip_none hm⟩
  · rw [get_query_nodes, h, buildMatchNodes]
  · obtain ⟨ms, hms⟩ := buildMatchNodes_isOk query filename code variables_
      (engineMatches query tree.root_node code) h
    refine ⟨ms, hms, ?_⟩
    exact (List.Forall₂.length_eq
      (buildMatchNodes_forall₂ query filename code variables_ _ ms hms)).symm

/-- C6 at concrete engines: no match gives the empty sequence, the
one-match engine (whose third capture maps to nothing and is skipped)
gives one `MatchNode`, and the skipped capture leaves the accumulator
untouched. -/
theorem claim_C6_witness :
    get_query_nodes engineEmpty exTree exQuery "f.py" "code" [] =
      Except.ok [] ∧
    (∃ ms, get_query_nodes engineOne exTree exQuery "f.py" "code" [] =
      Except.ok ms ∧ ms.length = (engineOne exQuery exTree.root_node "code").length) ∧
    processCapture exQuery { index := 1, node := exAnon } ([], []) =
      Except.ok ([], []) :=
  ⟨(claim_C6 engineEmpty exTree exQuery "f.py" "code" []).1 rfl,
   (claim_C6 engineOne exTree exQuery "f.py" "code" []).2.1
     (by intro qm hqm cap hcap
         fin_cases hqm
         fin_cases hcap <;> rfl),
   (claim_C6 engineOne exTree exQuery "f.py" "code" []).2.2
     { index := 1, node := exAnon } ([], []) rfl⟩

/-- C8 at a concrete language and engine: Python resolves, `get_query`
does not report a missing language even for a rejecting engine, and a
parse that reports no tree is the only way `get_tree` yields nothing. -/
theorem claim_C8_witness :
    (get_tree_sitter_language Language.Python).isSome = true ∧
    get_query engineReject "(" Language.Python ≠
      Except.error GetQueryError.noLanguageDefined ∧
    (get_tree engineParseNone "x" Language.Python = none ∧
      ∃ g, get_tree_sitter_language Language.Python = some g ∧
        engineParseNone g "x" = none) :=
  ⟨(claim_C8 Language.Python).1,
   (claim_C8 Language.Python).2.1 engineReject "(",
   rfl, (claim_C8 Language.Python).2.2 engineParseNone "x" rfl⟩

end DDSA
